import Mathlib

/-!
Verification development for the `handymatt` bookmarks tool
(`src/handymatt/bookmarks_getter.py`).

The Python code is shallowly embedded below.  Strings are Lean `String`s,
string algorithms are modelled structurally over `List Char` so that every
definition is executable by the kernel.  `None`-able Python parameters are
`Option`s, raised exceptions are `Except` errors.
-/

namespace Handymatt

/-! ## Embedded string primitives (Python `str` operations) -/

/-- Python `str.lower()` restricted to its ASCII action (all strings handled
by this repository's filters are compared after ASCII lowering). -/
def lowerChar (c : Char) : Char :=
  if 65 ≤ c.toNat ∧ c.toNat ≤ 90 then Char.ofNat (c.toNat + 32) else c

/-- `s.lower()` on a Lean string. -/
def lowerS (s : String) : String := ⟨s.data.map lowerChar⟩

/-- Python substring test `needle in hay` on char lists:
true iff `needle` occurs contiguously inside `hay`. -/
def isSub (needle : List Char) : List Char → Bool
  | [] => needle.isEmpty
  | c :: cs => needle.isPrefixOf (c :: cs) || isSub needle cs

/-- Python `s.split(sep)` for a single-character separator, on char lists.
`splitOn '/' "".data = [[]]` just as `"".split('/') == ['']`. -/
def splitOn (sep : Char) : List Char → List (List Char)
  | [] => [[]]
  | c :: cs =>
    if c = sep then [] :: splitOn sep cs
    else
      match splitOn sep cs with
      | [] => [[c]]
      | w :: ws => (c :: w) :: ws

/-- `s.split('/')` as a list of strings. -/
def splitSlash (s : String) : List String := (splitOn '/' s.data).map String.mk

/-- Python `sep in s` for a single character. -/
def containsChar (s : String) (c : Char) : Bool := s.data.contains c

/-- Python string comparison `a < b`: lexicographic on code points. -/
def ltCharList : List Char → List Char → Bool
  | [], [] => false
  | [], _ :: _ => true
  | _ :: _, [] => false
  | a :: as, b :: bs =>
    if a < b then true
    else if b < a then false
    else ltCharList as bs

/-- Python `a < b` on strings. -/
def ltStr (a b : String) : Bool := ltCharList a.data b.data

/-! ## Timestamp conversion (`_windows_epoch_readable`)

The Python source is
`str(datetime.datetime(1601, 1, 1) + datetime.timedelta(microseconds=int(us)))[:-7]`.
The date arithmetic of `datetime` is the proleptic Gregorian calendar; we
embed it with the standard civil-calendar conversion.  The raw input is a
decimal string holding a nonnegative integer of microseconds, embedded here
as the `Nat` it denotes. -/

/-- The decimal digit character for `d < 10`. -/
def digitChar (d : Nat) : Char := Char.ofNat (48 + d)

/-- Fixed-width 2-digit decimal rendering (`%02d` for values below 100;
all uses are hour/minute/second/month/day fields, which are below 60). -/
def pad2 (n : Nat) : String := ⟨[digitChar (n / 10 % 10), digitChar (n % 10)]⟩

/-- Fixed-width 4-digit decimal rendering (`%04d` for values below 10000;
`datetime` years are at most 9999). -/
def pad4 (n : Nat) : String :=
  ⟨[digitChar (n / 1000 % 10), digitChar (n / 100 % 10),
    digitChar (n / 10 % 10), digitChar (n % 10)]⟩

/-- Fixed-width 6-digit decimal rendering (`%06d` for values below 1000000;
used for the microsecond field). -/
def pad6 (n : Nat) : String :=
  ⟨[digitChar (n / 100000 % 10), digitChar (n / 10000 % 10),
    digitChar (n / 1000 % 10), digitChar (n / 100 % 10),
    digitChar (n / 10 % 10), digitChar (n % 10)]⟩

/-- Gregorian (year, month, day) from a count of days since 0000-03-01,
the standard civil-from-days conversion used to embed `datetime`'s
date arithmetic. -/
def civilFromDays (z : Nat) : Nat × Nat × Nat :=
  let era := z / 146097
  let doe := z % 146097
  let yoe := (doe - doe / 1460 + doe / 36524 - doe / 146096) / 365
  let y := yoe + era * 400
  let doy := doe - (365 * yoe + yoe / 4 - yoe / 100)
  let mp := (5 * doy + 2) / 153
  let d := doy - (153 * mp + 2) / 5 + 1
  let m := if mp < 10 then mp + 3 else mp - 9
  (if m ≤ 2 then y + 1 else y, m, d)

/-- Days from 0000-03-01 to 1601-01-01 (the Windows epoch). -/
def windowsEpochCivilDays : Nat := 584694

/-- Python `str(datetime(...))`: `"YYYY-MM-DD HH:MM:SS"`, with the
`".ffffff"` suffix appended only when the microsecond field is nonzero. -/
def datetimeStr (us : Nat) : String :=
  let micro := us % 1000000
  let secs := us / 1000000
  let sod := secs % 86400
  let days := secs / 86400
  let ymd := civilFromDays (days + windowsEpochCivilDays)
  let base :=
    pad4 ymd.1 ++ "-" ++ pad2 ymd.2.1 ++ "-" ++ pad2 ymd.2.2 ++ " " ++
    pad2 (sod / 3600) ++ ":" ++ pad2 (sod % 3600 / 60) ++ ":" ++ pad2 (sod % 60)
  if micro = 0 then base else base ++ "." ++ pad6 micro

/-- Python `s[:-7]` (for `s` of length at least 7). -/
def dropLast7 (s : String) : String := ⟨s.data.take (s.data.length - 7)⟩

/-- `BookmarksGetter._windows_epoch_readable`:
`str(windows_epoch_start + timedelta(microseconds=int(us)))[:-7]`. -/
def _windows_epoch_readable (us : Nat) : String := dropLast7 (datetimeStr us)

/-! ## Data model -/

instance {ε α : Type} [DecidableEq ε] [DecidableEq α] : DecidableEq (Except ε α) := fun x y =>
  match x, y with
  | Except.ok a, Except.ok b =>
    if h : a = b then Decidable.isTrue (by rw [h])
    else Decidable.isFalse (by intro hh; cases hh; exact h rfl)
  | Except.error a, Except.error b =>
    if h : a = b then Decidable.isTrue (by rw [h])
    else Decidable.isFalse (by intro hh; cases hh; exact h rfl)
  | Except.ok _, Except.error _ => Decidable.isFalse (by intro hh; cases hh)
  | Except.error _, Except.ok _ => Decidable.isFalse (by intro hh; cases hh)

/-- The `Bookmark` dataclass. -/
structure Bookmark where
  id : String
  name : String
  type : String
  url : String
  location : String
  date_added : String
  date_last_used : String
  date_modified : String
deriving DecidableEq

/-- The `BrowserFamily` enumeration. -/
inductive BrowserFamily where
  | CHROME
  | FIREFOX
deriving DecidableEq

/-- The exceptions get_bookmarks / path resolution can raise.  Each carries
the formatted Python message. -/
inductive GBError where
  | invalidSortAttribute (msg : String)
  | unknownDefaultPath (msg : String)
  | unknownBrowserFamily (msg : String)
deriving DecidableEq

/-! ## Bookmark parser (`_process_Chrome_bookmarks_as_list`)

A node of the `roots.bookmark_bar.children` JSON tree: the code looks only
at the `type` tag (`"url"` emits, `"folder"` recurses, anything else is
skipped), at a url node's fields and at a folder's `name`/`children`.
`date_*` raw values are decimal strings; they are embedded as the `Nat`
each denotes (`int(us)` is folded into `_windows_epoch_readable`).
`date_modified` is `Option`: `none` covers a missing or empty value, which
Python's truthiness test leaves unconverted.  The JSON array is the mutual
type `BForest` (a cons-list of nodes), so that the recursion is structural. -/

/-- Payload of a `type == "url"` node. -/
structure UrlData where
  id : String
  name : String
  url : String
  date_added : Nat
  date_last_used : Nat
  date_modified : Option Nat
deriving DecidableEq

mutual
/-- A node of the bookmarks JSON tree. -/
inductive BNode where
  | url (d : UrlData)
  | folder (name : String) (children : BForest)
  | other
/-- A `children` array of the bookmarks JSON tree. -/
inductive BForest where
  | nil
  | cons (hd : BNode) (tl : BForest)
end

/-- One flat record emitted by the walk: the source url-node mapping,
mutated with the `location` tag and the human-readable timestamps. -/
structure RawBookmark where
  id : String
  name : String
  type : String
  url : String
  location : String
  date_added : String
  date_last_used : String
  date_modified : Option String
deriving DecidableEq

mutual
/-- `_process_Chrome_bookmarks_as_list`, one array.  The Python `location`
parameter defaults to `None`; `None` and `''` are indistinguishable to the
body's truthiness tests, so both are embedded as `""`. -/
def _process_Chrome_bookmarks_as_list : BForest → String → List RawBookmark
  | BForest.nil, _ => []
  | BForest.cons hd tl, location =>
    processNode hd location ++ _process_Chrome_bookmarks_as_list tl location
/-- The loop body of `_process_Chrome_bookmarks_as_list` for one node. -/
def processNode : BNode → String → List RawBookmark
  | BNode.url d, location =>
    [{ id := d.id, name := d.name, type := "url", url := d.url,
       location := location,
       date_added := _windows_epoch_readable d.date_added,
       date_last_used := _windows_epoch_readable d.date_last_used,
       date_modified := d.date_modified.map _windows_epoch_readable }]
  | BNode.folder name children, location =>
    _process_Chrome_bookmarks_as_list children
      (if location = "" then name else location ++ "/" ++ name)
  | BNode.other, _ => []
end

/-- `_bookmark_from_json` on an emitted record: unknown keys are dropped,
the dataclass default `""` fills a missing `date_modified`. -/
def _bookmark_from_json (r : RawBookmark) : Bookmark :=
  { id := r.id, name := r.name, type := r.type, url := r.url,
    location := r.location, date_added := r.date_added,
    date_last_used := r.date_last_used,
    date_modified := r.date_modified.getD "" }

/-- `_convert_bookmarks_to_objects`. -/
def _convert_bookmarks_to_objects (rs : List RawBookmark) : List Bookmark :=
  rs.map _bookmark_from_json

/-! ## Query engine (`get_bookmarks`) -/

/-- The attribute names of the `Bookmark` dataclass (the values `getattr`
can sort by). -/
def bookmarkAttrNames : List String :=
  ["id", "name", "type", "url", "location",
   "date_added", "date_last_used", "date_modified"]

/-- `getattr(bm, a)` for the dataclass fields; `Option.none` is Python's
`AttributeError`. -/
def bookmarkAttr (b : Bookmark) : String → Option String
  | "id" => Option.some b.id
  | "name" => Option.some b.name
  | "type" => Option.some b.type
  | "url" => Option.some b.url
  | "location" => Option.some b.location
  | "date_added" => Option.some b.date_added
  | "date_last_used" => Option.some b.date_last_used
  | "date_modified" => Option.some b.date_modified
  | _ => Option.none

/-- Whether `a` names a `Bookmark` attribute. -/
def isBookmarkAttr (a : String) : Bool := bookmarkAttrNames.contains a

/-- The sort key `lambda bm: getattr(bm, s)` for a valid attribute `s`
(the default is never reached on the branch that uses it). -/
def attrKey (s : String) (b : Bookmark) : String := (bookmarkAttr b s).getD ""

/-- The `domain` argument: Python `None`, a single string, or a list. -/
inductive DomainArg where
  | none
  | str (s : String)
  | list (l : List String)

/-- Lines 113-114: a truthy non-list `domain` is wrapped into `[domain]`.
The falsy `""` stays a bare string, and iterating over `""` in the filter
comprehension yields no elements, exactly like the empty list.
`Option.none` means the filter is skipped. -/
def normalizeDomain : DomainArg → Option (List String)
  | DomainArg.none => Option.none
  | DomainArg.str s => if s = "" then Option.some [] else Option.some [s]
  | DomainArg.list l => Option.some l

/-- Lines 129-140: the foldername filter. -/
def folderFilter (foldername : String) (bms : List Bookmark) : List Bookmark :=
  let f := lowerS foldername
  if containsChar f '/' then
    bms.filter (fun b => isSub f.data (lowerS b.location).data)
  else
    bms.filter (fun b => (splitSlash (lowerS b.location)).contains f)

/-- Line 146: at least one domain occurs in the url, case-insensitively. -/
def domainMatch (domains : List String) (b : Bookmark) : Bool :=
  domains.any (fun dom => isSub (lowerS dom).data (lowerS b.url).data)

/-- Lines 143-147: the domain filter. -/
def domainFilter (domains : List String) (bms : List Bookmark) : List Bookmark :=
  bms.filter (domainMatch domains)

/-- The filtering stage of `get_bookmarks`: foldername filter first,
then domain filter. -/
def applyFilters (bms : List Bookmark) (foldername : Option String)
    (domain : DomainArg) : List Bookmark :=
  let b1 := match foldername with
    | Option.none => bms
    | Option.some f => folderFilter f bms
  match normalizeDomain domain with
  | Option.none => b1
  | Option.some ds => domainFilter ds b1

/-- Stable insertion placing `a` after every element it ties with:
`a` moves past `b` unless it is strictly before it. -/
def sInsert (lt : α → α → Bool) (a : α) : List α → List α
  | [] => [a]
  | b :: bs => if lt a b then a :: b :: bs else b :: sInsert lt a bs

/-- Python `list.sort` semantics: a stable sort.  A stable sort's output is
uniquely determined by the strict comparison, and left-to-right insertion
that puts each element after its ties realises it. -/
def pySort (lt : α → α → Bool) (l : List α) : List α :=
  l.foldl (fun acc a => sInsert lt a acc) []

/-- The strict comparison `list.sort(key=k, reverse=reverse)` sorts by:
string keys compare lexicographically; `reverse=True` flips the
comparison but (being stable) keeps ties in encounter order. -/
def keyLt (reverse : Bool) (k : α → String) (a b : α) : Bool :=
  if reverse then ltStr (k b) (k a) else ltStr (k a) (k b)

/-- Lines 150-153: the unconditional initial sort by `date_added`. -/
def dateSort (reverse : Bool) (bms : List Bookmark) : List Bookmark :=
  pySort (keyLt reverse (fun b => b.date_added)) bms

/-- Lines 105-165: the filter/sort stage of `get_bookmarks`, applied to the
parsed bookmark list.  CPython's `list.sort(key=f)` evaluates `f` on every
element before comparing, so an unknown `sortby` raises only when the list
is non-empty; `if sortby:` skips the re-sort for `None` and `""`. -/
def get_bookmarks (bms0 : List Bookmark) (foldername : Option String)
    (domain : DomainArg) (sortby : Option String) (reverse : Bool) :
    Except GBError (List Bookmark) :=
  let bms2 := dateSort reverse (applyFilters bms0 foldername domain)
  match sortby with
  | Option.none => Except.ok bms2
  | Option.some s =>
    if s = "" then Except.ok bms2
    else if isBookmarkAttr s then
      Except.ok (pySort (keyLt reverse (attrKey s)) bms2)
    else if bms2.isEmpty then Except.ok bms2
    else Except.error (GBError.invalidSortAttribute
      ("unable to sort Bookmarks by '" ++ s ++ "' attribute"))

/-! ## Path resolution (native Windows) -/

/-- `BookmarksGetter.DEFAULT_PATHS_WINDOWS` as a lookup:
`dict.get(browser, None)`. -/
def DEFAULT_PATHS_WINDOWS (browser : String) : Option String :=
  if browser = "chrome" then
    Option.some "%localappdata%\\Google\\Chrome\\User Data\\BROWSER_PROFILE_NAME\\Bookmarks"
  else if browser = "brave" then
    Option.some "%localappdata%\\BraveSoftware\\Brave-Browser\\User Data\\BROWSER_PROFILE_NAME\\Bookmarks"
  else if browser = "firefox" then Option.some ""
  else Option.none

/-- Python `str.replace(pat, rep)` (left-to-right, non-overlapping), for a
non-empty `pat`, written with a step-count so the recursion is structural;
each step consumes one list element or one whole match, so `fuel`
initialised to the input length always suffices. -/
def replaceFuel (pat rep : List Char) : Nat → List Char → List Char
  | _, [] => []
  | 0, l => l
  | fuel + 1, c :: cs =>
    if pat ≠ [] ∧ pat.isPrefixOf (c :: cs) then
      rep ++ replaceFuel pat rep fuel ((c :: cs).drop pat.length)
    else c :: replaceFuel pat rep fuel cs

/-- `s.replace(pat, rep)` on strings. -/
def replaceS (s pat rep : String) : String :=
  ⟨replaceFuel pat.data rep.data s.data.length s.data⟩

/-- Lines 217-223, `_get_bookmarks_file_Windows`: template lookup keyed by
the browser string exactly as given, then placeholder substitution.
`localappdata_env` embeds `os.getenv('LOCALAPPDATA', 'None')`. -/
def _get_bookmarks_file_Windows (browser profile : String)
    (localappdata_env : Option String) : Except GBError String :=
  match DEFAULT_PATHS_WINDOWS browser with
  | Option.none => Except.error (GBError.unknownDefaultPath
      ("unknown default bookmarks path for: '" ++ browser ++ "'"))
  | Option.some default_path =>
    let p1 := replaceS default_path "%localappdata%" (localappdata_env.getD "None")
    Except.ok (replaceS p1 "BROWSER_PROFILE_NAME" profile)

/-- Lines 236-242, `_get_browser_family`. -/
def _get_browser_family (browser : String) : Except GBError BrowserFamily :=
  if lowerS browser ∈ ["chrome", "chromium", "brave", "bravesoftware", "edge"] then
    Except.ok BrowserFamily.CHROME
  else if lowerS browser ∈ ["firefox", "waterfox", "librewolf"] then
    Except.ok BrowserFamily.FIREFOX
  else
    Except.error (GBError.unknownBrowserFamily
      ("unknown browser family for: " ++ browser))

/-! ## Order facts for the embedded string comparison -/

theorem ltCharList_cons (a b : Char) (as bs : List Char) :
    ltCharList (a :: as) (b :: bs)
      = if a < b then true else if b < a then false else ltCharList as bs := rfl

theorem ltCharList_irrefl (l : List Char) : ltCharList l l = false := by
  induction l with
  | nil => rfl
  | cons c cs ih => rw [ltCharList_cons, if_neg (lt_irrefl c), if_neg (lt_irrefl c)]; exact ih

theorem ltCharList_asymm : ∀ {a b : List Char},
    ltCharList a b = true → ltCharList b a = false
  | [], [], h => by exact absurd h (by rw [show ltCharList [] [] = false from rfl]; simp)
  | [], _ :: _, _ => rfl
  | _ :: _, [], h => by exact absurd h (by rw [show ltCharList (_ :: _) [] = false from rfl]; simp)
  | a :: as, b :: bs, h => by
    rw [ltCharList_cons] at h ⊢
    by_cases hab : a < b
    · rw [if_neg (lt_asymm hab), if_pos hab]
    · rw [if_neg hab] at h
      by_cases hba : b < a
      · rw [if_pos hba] at h; exact absurd h (by simp)
      · rw [if_neg hba] at h
        rw [if_neg hba, if_neg hab]
        exact ltCharList_asymm h

theorem ltCharList_trans : ∀ {a b c : List Char},
    ltCharList a b = true → ltCharList b c = true → ltCharList a c = true
  | [], b, [], h1, h2 => by
    cases b with
    | nil => exact h1
    | cons x xs => exact absurd h2 (by rw [show ltCharList (x :: xs) [] = false from rfl]; simp)
  | [], _, _ :: _, _, _ => rfl
  | _ :: _, [], _, h1, _ => by
    exact absurd h1 (by rw [show ltCharList (_ :: _) [] = false from rfl]; simp)
  | _ :: _, b, [], h1, h2 => by
    cases b with
    | nil => exact h2
    | cons x xs => exact absurd h2 (by rw [show ltCharList (x :: xs) [] = false from rfl]; simp)
  | a :: as, b :: bs, c :: cs, h1, h2 => by
    rw [ltCharList_cons] at h1 h2 ⊢
    by_cases hab : a < b
    · by_cases hbc : b < c
      · rw [if_pos (lt_trans hab hbc)]
      · rw [if_neg hbc] at h2
        by_cases hcb : c < b
        · rw [if_pos hcb] at h2; exact absurd h2 (by simp)
        · rw [if_neg hcb] at h2
          have hbc' : b = c := le_antisymm (not_lt.mp hcb) (not_lt.mp hbc)
          rw [if_pos (hbc' ▸ hab)]
    · rw [if_neg hab] at h1
      by_cases hba : b < a
      · rw [if_pos hba] at h1; exact absurd h1 (by simp)
      · rw [if_neg hba] at h1
        have hab' : a = b := le_antisymm (not_lt.mp hba) (not_lt.mp hab)
        subst hab'
        by_cases hac : a < c
        · rw [if_pos hac]
        · rw [if_neg hac] at h2 ⊢
          by_cases hca : c < a
          · rw [if_pos hca] at h2; exact absurd h2 (by simp)
          · rw [if_neg hca] at h2 ⊢
            exact ltCharList_trans h1 h2

theorem ltCharList_conn : ∀ {a b : List Char},
    ltCharList a b = false → ltCharList b a = false → a = b
  | [], [], _, _ => rfl
  | [], _ :: _, h1, _ => by exact absurd h1 (by rw [show ltCharList [] (_ :: _) = true from rfl]; simp)
  | _ :: _, [], _, h2 => by exact absurd h2 (by rw [show ltCharList [] (_ :: _) = true from rfl]; simp)
  | a :: as, b :: bs, h1, h2 => by
    rw [ltCharList_cons] at h1 h2
    by_cases hab : a < b
    · rw [if_pos hab] at h1; exact absurd h1 (by simp)
    · rw [if_neg hab] at h1
      by_cases hba : b < a
      · rw [if_pos hba] at h2; exact absurd h2 (by simp)
      · rw [if_neg hba] at h1 h2
        rw [if_neg hab] at h2
        have hab' : a = b := le_antisymm (not_lt.mp hba) (not_lt.mp hab)
        have : as = bs := ltCharList_conn h1 h2
        rw [hab', this]

theorem ltStr_irrefl (s : String) : ltStr s s = false := ltCharList_irrefl s.data

theorem ltStr_asymm {a b : String} (h : ltStr a b = true) : ltStr b a = false :=
  ltCharList_asymm h

theorem ltStr_trans {a b c : String} (h1 : ltStr a b = true) (h2 : ltStr b c = true) :
    ltStr a c = true :=
  ltCharList_trans h1 h2

theorem ltStr_conn {a b : String} (h1 : ltStr a b = false) (h2 : ltStr b a = false) :
    a = b := by
  have h : a.data = b.data := ltCharList_conn h1 h2
  cases a; cases b; exact congrArg String.mk h

/-! ## Properties of the embedded stable sort -/

theorem keyLt_false_def (k : α → String) (a b : α) :
    keyLt false k a b = ltStr (k a) (k b) := rfl

theorem keyLt_true_def (k : α → String) (a b : α) :
    keyLt true k a b = ltStr (k b) (k a) := rfl

theorem keyLt_of_keys_eq {k : α → String} {r : Bool} {a b : α} (h : k a = k b) :
    keyLt r k a b = false := by
  cases r
  · rw [keyLt_false_def, h]; exact ltStr_irrefl _
  · rw [keyLt_true_def, h]; exact ltStr_irrefl _

theorem keyLt_asymm {k : α → String} {r : Bool} {a b : α}
    (h : keyLt r k a b = true) : keyLt r k b a = false := by
  cases r
  · rw [keyLt_false_def] at h ⊢; exact ltStr_asymm h
  · rw [keyLt_true_def] at h ⊢; exact ltStr_asymm h

theorem keyLt_trans {k : α → String} {r : Bool} {a b c : α}
    (h1 : keyLt r k a b = true) (h2 : keyLt r k b c = true) : keyLt r k a c = true := by
  cases r
  · rw [keyLt_false_def] at h1 h2 ⊢; exact ltStr_trans h1 h2
  · rw [keyLt_true_def] at h1 h2 ⊢; exact ltStr_trans h2 h1

theorem keyLt_tie {k : α → String} {r : Bool} {a b : α}
    (h1 : keyLt r k a b = false) (h2 : keyLt r k b a = false) : k a = k b := by
  cases r
  · rw [keyLt_false_def] at h1 h2; exact ltStr_conn h1 h2
  · rw [keyLt_true_def] at h1 h2; exact ltStr_conn h2 h1

theorem keyLt_congr_left {k : α → String} {r : Bool} {a a' : α} (b : α)
    (h : k a = k a') : keyLt r k a b = keyLt r k a' b := by
  cases r
  · rw [keyLt_false_def, keyLt_false_def, h]
  · rw [keyLt_true_def, keyLt_true_def, h]

/-- Ascending for the strict comparison `lt`: no later element is strictly
before an earlier one. -/
def Sorteds (lt : α → α → Bool) (l : List α) : Prop :=
  l.Pairwise (fun a b => lt b a = false)

theorem sInsert_perm (lt : α → α → Bool) (a : α) (l : List α) :
    List.Perm (sInsert lt a l) (a :: l) := by
  induction l with
  | nil => exact List.Perm.refl _
  | cons b bs ih =>
    simp only [sInsert]
    by_cases h : lt a b = true
    · rw [if_pos h]
    · rw [if_neg h]
      exact (ih.cons b).trans (List.Perm.swap a b bs)

theorem foldl_sInsert_perm (lt : α → α → Bool) :
    ∀ (l acc : List α), List.Perm (l.foldl (fun acc a => sInsert lt a acc) acc) (l ++ acc)
  | [], acc => by simp
  | a :: l, acc => by
    simp only [List.foldl_cons]
    exact ((foldl_sInsert_perm lt l (sInsert lt a acc)).trans
      ((sInsert_perm lt a acc).append_left l)).trans List.perm_middle

theorem pySort_perm (lt : α → α → Bool) (l : List α) : List.Perm (pySort lt l) l := by
  simpa using foldl_sInsert_perm lt l []

theorem sInsert_sorted {k : α → String} {r : Bool} (a : α) :
    ∀ {l : List α}, Sorteds (keyLt r k) l → Sorteds (keyLt r k) (sInsert (keyLt r k) a l) := by
  intro l hs
  induction l with
  | nil => simp [Sorteds, sInsert]
  | cons b bs ih =>
    rw [Sorteds, List.pairwise_cons] at hs
    obtain ⟨hb, hbs⟩ := hs
    simp only [sInsert]
    by_cases hab : keyLt r k a b = true
    · rw [if_pos hab]
      rw [Sorteds, List.pairwise_cons]
      refine ⟨?_, List.pairwise_cons.mpr ⟨hb, hbs⟩⟩
      intro x hx
      cases hx with
      | head => exact keyLt_asymm hab
      | tail _ hx =>
        cases hxa : keyLt r k x a with
        | false => rfl
        | true => exact absurd (keyLt_trans hxa hab) (by rw [hb x hx]; simp)
    · rw [if_neg hab]
      rw [Sorteds, List.pairwise_cons]
      refine ⟨?_, ih hbs⟩
      intro x hx
      have hx' : x ∈ a :: bs := (sInsert_perm (keyLt r k) a bs).mem_iff.mp hx
      cases hx' with
      | head => simpa using hab
      | tail _ hx' => exact hb x hx'

theorem foldl_sInsert_sorted {k : α → String} {r : Bool} :
    ∀ (l acc : List α), Sorteds (keyLt r k) acc →
      Sorteds (keyLt r k) (l.foldl (fun acc a => sInsert (keyLt r k) a acc) acc)
  | [], _, hacc => hacc
  | a :: l, acc, hacc => by
    simp only [List.foldl_cons]
    exact foldl_sInsert_sorted l _ (sInsert_sorted a hacc)

theorem pySort_sorted {k : α → String} {r : Bool} (l : List α) :
    Sorteds (keyLt r k) (pySort (keyLt r k) l) :=
  foldl_sInsert_sorted l [] List.Pairwise.nil

theorem filter_sInsert_of_ne {k : α → String} {r : Bool} {v : String} {a : α}
    (ha : ¬(k a = v)) (l : List α) :
    (sInsert (keyLt r k) a l).filter (fun x => decide (k x = v))
      = l.filter (fun x => decide (k x = v)) := by
  induction l with
  | nil => simp [sInsert, ha]
  | cons b bs ih =>
    simp only [sInsert]
    by_cases hab : keyLt r k a b = true
    · rw [if_pos hab]
      simp [List.filter_cons, ha]
    · rw [if_neg hab]
      simp only [List.filter_cons, ih]

theorem filter_sInsert_of_eq {k : α → String} {r : Bool} {v : String} {a : α}
    (ha : k a = v) :
    ∀ {l : List α}, Sorteds (keyLt r k) l →
      (sInsert (keyLt r k) a l).filter (fun x => decide (k x = v))
        = l.filter (fun x => decide (k x = v)) ++ [a] := by
  intro l hs
  induction l with
  | nil => simp [sInsert, ha]
  | cons b bs ih =>
    rw [Sorteds, List.pairwise_cons] at hs
    obtain ⟨hb, hbs⟩ := hs
    simp only [sInsert]
    by_cases hab : keyLt r k a b = true
    · rw [if_pos hab]
      have hbv : ¬(k b = v) := by
        intro hbv
        have : keyLt r k a b = false := keyLt_of_keys_eq (ha.trans hbv.symm)
        rw [this] at hab; exact absurd hab (by simp)
      have hnone : ∀ x ∈ bs, ¬(k x = v) := by
        intro x hx hxv
        have hxb : keyLt r k x b = keyLt r k a b :=
          keyLt_congr_left b (hxv.trans ha.symm)
        rw [hab] at hxb
        rw [hb x hx] at hxb
        exact absurd hxb (by simp)
      have hfilter : bs.filter (fun x => decide (k x = v)) = [] := by
        rw [List.filter_eq_nil_iff]
        intro x hx
        simpa using hnone x hx
      simp [List.filter_cons, ha, hbv, hfilter]
    · rw [if_neg hab]
      simp only [List.filter_cons, ih hbs]
      by_cases hbv : k b = v
      · simp [hbv]
      · simp [hbv]

theorem foldl_sInsert_filter {k : α → String} {r : Bool} {v : String} :
    ∀ (l acc : List α), Sorteds (keyLt r k) acc →
      (l.foldl (fun acc a => sInsert (keyLt r k) a acc) acc).filter
          (fun x => decide (k x = v))
        = acc.filter (fun x => decide (k x = v))
            ++ l.filter (fun x => decide (k x = v))
  | [], acc, _ => by simp
  | a :: l, acc, hacc => by
    simp only [List.foldl_cons]
    rw [foldl_sInsert_filter l _ (sInsert_sorted a hacc)]
    by_cases ha : k a = v
    · rw [filter_sInsert_of_eq ha hacc]
      simp [List.filter_cons, ha]
    · rw [filter_sInsert_of_ne ha]
      simp [List.filter_cons, ha]

/-- Stability of the embedded sort: the elements of any one key class come
out in their input order. -/
theorem pySort_filter_key {k : α → String} {r : Bool} (v : String) (l : List α) :
    (pySort (keyLt r k) l).filter (fun x => decide (k x = v))
      = l.filter (fun x => decide (k x = v)) := by
  simpa using foldl_sInsert_filter (k := k) (r := r) (v := v) l [] List.Pairwise.nil

/-- With pairwise-distinct keys the sort is strictly sorted. -/
theorem pySort_sorted_strict {k : α → String} {r : Bool} {l : List α}
    (hnd : (l.map k).Nodup) :
    (pySort (keyLt r k) l).Pairwise (fun a b => keyLt r k a b = true) := by
  have hperm : List.Perm ((pySort (keyLt r k) l).map k) (l.map k) :=
    (pySort_perm (keyLt r k) l).map k
  have hnd' : ((pySort (keyLt r k) l).map k).Nodup := hperm.nodup_iff.mpr hnd
  have hne : (pySort (keyLt r k) l).Pairwise (fun a b => k a ≠ k b) :=
    List.pairwise_map.mp hnd'
  have hsorted : (pySort (keyLt r k) l).Pairwise (fun a b => keyLt r k b a = false) :=
    pySort_sorted l
  refine (hsorted.and hne).imp ?_
  intro a b hab
  cases h : keyLt r k a b with
  | true => rfl
  | false => exact absurd (keyLt_tie h hab.1) hab.2

/-- Sorting with `reverse=True` is the exact reverse of sorting with
`reverse=False` when the keys are pairwise distinct, whatever order the
(common multiset of) input arrives in. -/
theorem pySort_desc_eq_reverse_asc (k : α → String) {l l₁ l₂ : List α}
    (hnd : (l.map k).Nodup) (h₁ : List.Perm l₁ l) (h₂ : List.Perm l₂ l) :
    pySort (keyLt true k) l₂ = (pySort (keyLt false k) l₁).reverse := by
  have hnd₁ : (l₁.map k).Nodup := ((h₁.map k).nodup_iff).mpr hnd
  have hnd₂ : (l₂.map k).Nodup := ((h₂.map k).nodup_iff).mpr hnd
  have s₂ : (pySort (keyLt true k) l₂).Pairwise (fun a b => keyLt true k a b = true) :=
    pySort_sorted_strict hnd₂
  have s₁ : (pySort (keyLt false k) l₁).Pairwise (fun a b => keyLt false k a b = true) :=
    pySort_sorted_strict hnd₁
  have s₁r : ((pySort (keyLt false k) l₁).reverse).Pairwise
      (fun a b => keyLt true k a b = true) := by
    rw [List.pairwise_reverse]
    exact s₁.imp (fun h => by simpa [keyLt] using h)
  have hperm : List.Perm (pySort (keyLt true k) l₂) ((pySort (keyLt false k) l₁).reverse) :=
    ((pySort_perm _ _).trans h₂).trans
      (((List.reverse_perm _).trans ((pySort_perm _ _).trans h₁)).symm)
  haveI : IsAntisymm α (fun a b => keyLt true k a b = true) :=
    ⟨fun a b hab hba => absurd hba (by rw [keyLt_asymm hab]; simp)⟩
  exact List.eq_of_perm_of_sorted hperm s₂ s₁r

/-! ## Spec-side flattening (for the refinement claim C4) -/

/-- The "/"-joined chain of ancestor folder names (empty for the root). -/
def joinChain : List String → String
  | [] => ""
  | [n] => n
  | n :: ns => n ++ "/" ++ joinChain ns

mutual
/-- Modelled from the spec's words: walk the children array; a url node is
emitted annotated with `location` equal to the joined-by-"/" chain of
ancestor folder names accumulated so far; a folder recurses with the chain
extended by its own name; any other type is ignored. -/
def flattenSpecF : BForest → List String → List RawBookmark
  | BForest.nil, _ => []
  | BForest.cons hd tl, anc => flattenSpecN hd anc ++ flattenSpecF tl anc
/-- Spec-side handling of a single node (see `flattenSpecF`). -/
def flattenSpecN : BNode → List String → List RawBookmark
  | BNode.url d, anc =>
    [{ id := d.id, name := d.name, type := "url", url := d.url,
       location := joinChain anc,
       date_added := _windows_epoch_readable d.date_added,
       date_last_used := _windows_epoch_readable d.date_last_used,
       date_modified := d.date_modified.map _windows_epoch_readable }]
  | BNode.folder name children, anc => flattenSpecF children (anc ++ [name])
  | BNode.other, _ => []
end

mutual
/-- Every folder name in the forest is non-empty (well-formedness of a
bookmarks tree; folder names are user-visible titles). -/
def goodNamesF : BForest → Bool
  | BForest.nil => true
  | BForest.cons hd tl => goodNamesN hd && goodNamesF tl
/-- See `goodNamesF`. -/
def goodNamesN : BNode → Bool
  | BNode.url _ => true
  | BNode.folder name children => (name != "") && goodNamesF children
  | BNode.other => true
end

theorem string_mk_append (a b : String) : a ++ b = String.mk (a.data ++ b.data) := rfl

theorem strAppend_assoc (a b c : String) : a ++ b ++ c = a ++ (b ++ c) := by
  cases a; cases b; cases c
  exact congrArg String.mk (List.append_assoc _ _ _)

theorem string_ne_empty_of_data_ne (s : String) (h : s.data ≠ []) : s ≠ "" := by
  intro hs
  exact h (congrArg String.data hs)

theorem joinChain_ne_empty : ∀ (ns : List String), ns ≠ [] →
    (∀ a ∈ ns, a ≠ "") → joinChain ns ≠ ""
  | [], h, _ => absurd rfl h
  | [a], _, ha => by
    simpa [joinChain] using ha a (by simp)
  | a :: b :: t, _, ha => by
    show a ++ "/" ++ joinChain (b :: t) ≠ ""
    apply string_ne_empty_of_data_ne
    rw [string_mk_append]
    simp

theorem joinChain_snoc : ∀ (ns : List String) (n : String), ns ≠ [] →
    joinChain (ns ++ [n]) = joinChain ns ++ "/" ++ n
  | [], _, h => absurd rfl h
  | [a], n, _ => rfl
  | a :: b :: t, n, _ => by
    show a ++ "/" ++ joinChain ((b :: t) ++ [n]) = a ++ "/" ++ joinChain (b :: t) ++ "/" ++ n
    rw [joinChain_snoc (b :: t) n (by simp)]
    simp only [strAppend_assoc]

mutual
/-- The code's walk agrees with the spec-side flatten on every tree whose
folder names are non-empty, at every ancestor chain of non-empty names. -/
theorem processF_eq_spec : ∀ (ar : BForest) (anc : List String),
    goodNamesF ar = true → (∀ a ∈ anc, a ≠ "") →
    _process_Chrome_bookmarks_as_list ar (joinChain anc) = flattenSpecF ar anc
  | BForest.nil, _, _, _ => rfl
  | BForest.cons hd tl, anc, hg, ha => by
    rw [goodNamesF, Bool.and_eq_true] at hg
    show processNode hd (joinChain anc) ++ _process_Chrome_bookmarks_as_list tl (joinChain anc)
      = flattenSpecN hd anc ++ flattenSpecF tl anc
    rw [processN_eq_spec hd anc hg.1 ha, processF_eq_spec tl anc hg.2 ha]
/-- Single-node part of `processF_eq_spec`. -/
theorem processN_eq_spec : ∀ (n : BNode) (anc : List String),
    goodNamesN n = true → (∀ a ∈ anc, a ≠ "") →
    processNode n (joinChain anc) = flattenSpecN n anc
  | BNode.url _, _, _, _ => rfl
  | BNode.folder name children, anc, hg, ha => by
    rw [goodNamesN, Bool.and_eq_true] at hg
    have hname : name ≠ "" := by simpa using hg.1
    have hloc : (if joinChain anc = "" then name
        else joinChain anc ++ "/" ++ name) = joinChain (anc ++ [name]) := by
      cases anc with
      | nil => simp [joinChain]
      | cons a t =>
        rw [if_neg (joinChain_ne_empty (a :: t) (by simp) ha),
            joinChain_snoc (a :: t) name (by simp)]
    show _process_Chrome_bookmarks_as_list children
        (if joinChain anc = "" then name else joinChain anc ++ "/" ++ name)
      = flattenSpecF children (anc ++ [name])
    rw [hloc]
    refine processF_eq_spec children (anc ++ [name]) hg.2 ?_
    intro x hx
    rcases List.mem_append.mp hx with h | h
    · exact ha x h
    · rw [List.mem_singleton.mp h]; exact hname
  | BNode.other, _, _, _ => rfl
end

/-! ## Helper lemmas about the query pipeline -/

theorem pySort_eq_nil_iff (lt : α → α → Bool) (l : List α) :
    pySort lt l = [] ↔ l = [] := by
  constructor
  · intro h
    have hp := (pySort_perm lt l).symm
    rw [h] at hp
    exact List.eq_nil_of_length_eq_zero (by simpa using hp.length_eq)
  · intro h; rw [h]; rfl

theorem dateSort_nil (r : Bool) : dateSort r [] = [] := rfl

theorem get_bookmarks_of_filters_nil (bms : List Bookmark) (f : Option String)
    (d : DomainArg) (s : Option String) (r : Bool)
    (h : applyFilters bms f d = []) :
    get_bookmarks bms f d s r = Except.ok [] := by
  simp only [get_bookmarks, h, dateSort_nil]
  cases s with
  | none => rfl
  | some str =>
    by_cases hstr : str = ""
    · simp [hstr]
    · by_cases hattr : isBookmarkAttr str = true
      · simp [hstr, hattr]
        rfl
      · simp [hstr, hattr]

/-! ## Concrete fixtures used by witnesses and counterexamples -/

/-- A bookmark with the given id, name, url, location and date_added. -/
def exBm (i nm ur loc da : String) : Bookmark :=
  { id := i, name := nm, type := "url", url := ur, location := loc,
    date_added := da, date_last_used := "", date_modified := "" }

def bmW : Bookmark := exBm "1" "w" "u" "Work" "1"
def bmWS : Bookmark := exBm "2" "ws" "u" "Work/Sub" "2"
def bmWSD : Bookmark := exBm "3" "wsd" "u" "Work/Sub/Deep" "3"
def bmO : Bookmark := exBm "4" "o" "u" "Other" "4"

/-- The four locations of the folder-filter scenario. -/
def folderBms : List Bookmark := [bmW, bmWS, bmWSD, bmO]

def bmGit : Bookmark := exBm "1" "g" "https://github.com/x" "" "1"
def bmEx : Bookmark := exBm "2" "e" "https://example.com" "" "2"
def bmLab : Bookmark := exBm "3" "l" "https://gitlab.com/y" "" "3"

def exUrlA : UrlData := ⟨"1", "A", "urlA", 1, 1, Option.none⟩
def exUrlB : UrlData := ⟨"2", "B", "urlB", 2, 2, Option.none⟩

/-- Root with url-node A and a folder "Work" containing url-node B. -/
def exForest : BForest :=
  BForest.cons (BNode.url exUrlA)
    (BForest.cons (BNode.folder "Work" (BForest.cons (BNode.url exUrlB) BForest.nil))
      BForest.nil)

/-! ## Claims -/

/-- Claim C1: the timestamp conversion is intended to produce
"YYYY-MM-DD HH:MM:SS", and does so for inputs that are not whole seconds
(`us = 1`, `us = 86400000001`); but for whole-second inputs Python's
`str(datetime)` omits the ".ffffff" suffix, so the `[:-7]` slice chops the
end of the seconds field instead: input `0` produces "1601-01-01 0" and
input `86400000000` produces "1601-01-02 0", not the values the spec
states.  The spec is the evident intent and the code a slip. -/
theorem C1_timestamp_truncation :
    _windows_epoch_readable 0 = "1601-01-01 0"
    ∧ _windows_epoch_readable 0 ≠ "1601-01-01 00:00:00"
    ∧ _windows_epoch_readable 86400000000 = "1601-01-02 0"
    ∧ _windows_epoch_readable 86400000000 ≠ "1601-01-02 00:00:00"
    ∧ _windows_epoch_readable 1 = "1601-01-01 00:00:00"
    ∧ _windows_epoch_readable 86400000001 = "1601-01-02 00:00:00" := by
  decide

/-- Claim C2, counterexample: with `foldername = "Work"` the filter keeps
the bookmark at location "Work/Sub" as well ("work" is an exact segment of
"work/sub"), so the match set is not exactly {"Work"} as the claim's
scenario states. -/
theorem C2_counterexample :
    bmWS ∈ folderFilter "Work" folderBms
    ∧ folderFilter "Work" folderBms ≠ [bmW] := by decide

/-- Claim C2 (amended): the folder filter is case-insensitive and
asymmetric exactly as the claim's general rule states — substring match
when the foldername contains "/", exact-segment match otherwise — but on
the scenario locations {"Work","Work/Sub","Work/Sub/Deep","Other"},
foldername "Work/Sub" matches {"Work/Sub","Work/Sub/Deep"} and foldername
"Work" matches {"Work","Work/Sub","Work/Sub/Deep"} (not just {"Work"}:
"work" is an exact segment of every location below the Work folder). -/
theorem C2_folder_filter :
    (∀ (f : String) (bms : List Bookmark) (b : Bookmark),
      b ∈ folderFilter f bms ↔ b ∈ bms ∧
        (if containsChar (lowerS f) '/' then isSub (lowerS f).data (lowerS b.location).data
         else (splitSlash (lowerS b.location)).contains (lowerS f)) = true)
    ∧ folderFilter "Work/Sub" folderBms = [bmWS, bmWSD]
    ∧ folderFilter "Work" folderBms = [bmW, bmWS, bmWSD] := by
  refine ⟨?_, by decide, by decide⟩
  intro f bms b
  by_cases h : containsChar (lowerS f) '/' = true
  · simp [folderFilter, h, List.mem_filter]
  · simp only [Bool.not_eq_true] at h
    simp [folderFilter, h, List.mem_filter]

/-- Claim C3, counterexample: "chromium" and "Chrome" are recognized
browser identifiers (family CHROME), but the Windows path lookup uses the
browser string verbatim — it neither lower-cases nor folds to
{chrome, brave} — so both raise the "unknown default path" error instead
of resolving the chrome template as the claim describes. -/
theorem C3_counterexample :
    _get_browser_family "chromium" = Except.ok BrowserFamily.CHROME
    ∧ _get_bookmarks_file_Windows "chromium" "Default"
        (Option.some "C:\\Users\\u\\AppData\\Local")
      = Except.error (GBError.unknownDefaultPath
          "unknown default bookmarks path for: 'chromium'")
    ∧ _get_browser_family "Chrome" = Except.ok BrowserFamily.CHROME
    ∧ _get_bookmarks_file_Windows "Chrome" "Default"
        (Option.some "C:\\Users\\u\\AppData\\Local")
      = Except.error (GBError.unknownDefaultPath
          "unknown default bookmarks path for: 'Chrome'") := by decide

/-- Claim C3 (amended): the native-Windows lookup keys the path-template
table with the browser identifier exactly as given (no lower-casing, no
folding); every identifier other than the literal keys "chrome", "brave"
and "firefox" — including recognized spellings such as "Chrome",
"chromium" or "edge" — raises the fatal "unknown default path" error, and
the literal keys "chrome" and "brave" resolve to a path. -/
theorem C3_windows_path_lookup (browser profile : String) (env : Option String) :
    (browser ∉ (["chrome", "brave", "firefox"] : List String) →
      _get_bookmarks_file_Windows browser profile env
        = Except.error (GBError.unknownDefaultPath
            ("unknown default bookmarks path for: '" ++ browser ++ "'")))
    ∧ (browser = "chrome" ∨ browser = "brave" →
      ∃ p, _get_bookmarks_file_Windows browser profile env = Except.ok p) := by
  constructor
  · intro h
    simp only [List.mem_cons, List.mem_singleton, not_or] at h
    obtain ⟨h1, h2, h3⟩ := h
    simp [_get_bookmarks_file_Windows, DEFAULT_PATHS_WINDOWS, h1, h2, h3]
  · intro h
    rcases h with h | h <;> subst h <;>
      exact ⟨_, rfl⟩

/-- Witness for C3: "edge" is not a literal key, so resolution fails. -/
theorem C3_witness :
    ("edge" ∉ (["chrome", "brave", "firefox"] : List String))
    ∧ _get_bookmarks_file_Windows "edge" "Default" Option.none
      = Except.error (GBError.unknownDefaultPath
          ("unknown default bookmarks path for: '" ++ "edge" ++ "'")) :=
  ⟨by decide, (C3_windows_path_lookup "edge" "Default" Option.none).1 (by decide)⟩

/-- A tree whose root folder has the empty name: an empty-named folder
containing a folder "x" containing a url node. -/
def badForest : BForest :=
  BForest.cons
    (BNode.folder ""
      (BForest.cons (BNode.folder "x" (BForest.cons (BNode.url exUrlA) BForest.nil))
        BForest.nil))
    BForest.nil

/-- Claim C4, counterexample: for a folder with the empty name the code's
location accumulator (`f'{location}/{name}' if location else name`)
collapses the empty segment, so the emitted location is "x" while the
"/"-joined chain of ancestor folder names ["", "x"] is "/x" — the claim's
universal "location equals the joined chain" fails on such a tree. -/
theorem C4_counterexample :
    _process_Chrome_bookmarks_as_list badForest "" ≠ flattenSpecF badForest []
    ∧ (_process_Chrome_bookmarks_as_list badForest "").map (fun rb => rb.location) = ["x"]
    ∧ (flattenSpecF badForest []).map (fun rb => rb.location) = ["/x"] := by decide

/-- Claim C4 (amended): the walk flattens the tree depth-first preserving source
order; a url node is emitted with `location` the "/"-joined chain of
ancestor folder names (empty at the root), a folder is recursed into with
the chain extended by its name, and any other node type is ignored — the
code walk coincides with the spec-side flatten on every tree whose folder
names are non-empty (the restriction the counterexample forces).  The
claim's scenario (root url A plus folder "Work" containing url B) flattens
to [A at "", B at "Work"]. -/
theorem C4_flatten :
    (∀ (ar : BForest) (anc : List String), goodNamesF ar = true →
      (∀ a ∈ anc, a ≠ "") →
      _process_Chrome_bookmarks_as_list ar (joinChain anc) = flattenSpecF ar anc)
    ∧ _process_Chrome_bookmarks_as_list exForest "" =
      [{ id := "1", name := "A", type := "url", url := "urlA", location := "",
         date_added := "1601-01-01 00:00:00", date_last_used := "1601-01-01 00:00:00",
         date_modified := Option.none },
       { id := "2", name := "B", type := "url", url := "urlB", location := "Work",
         date_added := "1601-01-01 00:00:00", date_last_used := "1601-01-01 00:00:00",
         date_modified := Option.none }] :=
  ⟨processF_eq_spec, by decide⟩

/-- Witness for C4: the general refinement applied at the scenario tree
and the empty ancestor chain. -/
theorem C4_witness :
    goodNamesF exForest = true
    ∧ _process_Chrome_bookmarks_as_list exForest (joinChain []) = flattenSpecF exForest [] :=
  ⟨by decide, C4_flatten.1 exForest [] (by decide) (by simp)⟩

/-- Claim C5: after the unavoidable `date_added` pre-sort, a given valid
`sortby` re-sorts stably: the output is the stable sort of the pre-sorted
list by the attribute key, and within every class of equal `sortby` keys
the output order is exactly the pre-sort (`date_added`) order. -/
theorem C5_stable_sort (bms : List Bookmark) (f : Option String) (d : DomainArg)
    (s : String) (r : Bool) (out : List Bookmark)
    (hs : isBookmarkAttr s = true)
    (hout : get_bookmarks bms f d (Option.some s) r = Except.ok out) :
    out = pySort (keyLt r (attrKey s)) (dateSort r (applyFilters bms f d))
    ∧ ∀ v, out.filter (fun b => decide (attrKey s b = v))
        = (dateSort r (applyFilters bms f d)).filter (fun b => decide (attrKey s b = v)) := by
  have hne : s ≠ "" := by
    intro h
    rw [h] at hs
    exact absurd hs (by decide)
  simp only [get_bookmarks, hne, if_false, if_neg hne, hs, if_pos, if_true] at hout
  have hout' : out = pySort (keyLt r (attrKey s)) (dateSort r (applyFilters bms f d)) := by
    cases hout
    rfl
  refine ⟨hout', ?_⟩
  intro v
  rw [hout']
  exact pySort_filter_key v (dateSort r (applyFilters bms f d))

def c5a : Bookmark := exBm "1" "same" "u" "" "2001"
def c5b : Bookmark := exBm "2" "same" "u" "" "2002"
def c5c : Bookmark := exBm "3" "aaa" "u" "" "2003"

/-- Witness for C5 at a concrete tie: sorting [c5b, c5c, c5a] by "name"
keeps the two "same"-named bookmarks in `date_added` order. -/
theorem C5_witness :
    isBookmarkAttr "name" = true
    ∧ ([c5c, c5a, c5b]
        = pySort (keyLt false (attrKey "name"))
            (dateSort false (applyFilters [c5b, c5c, c5a] Option.none DomainArg.none))
      ∧ ∀ v, [c5c, c5a, c5b].filter (fun b => decide (attrKey "name" b = v))
          = (dateSort false (applyFilters [c5b, c5c, c5a] Option.none DomainArg.none)).filter
              (fun b => decide (attrKey "name" b = v))) :=
  ⟨by decide,
   C5_stable_sort [c5b, c5c, c5a] Option.none DomainArg.none "name" false
     [c5c, c5a, c5b] (by decide) (by decide)⟩

/-- Claim C6, counterexample: with an empty bookmark list the sort key is
never evaluated, so an unknown `sortby` raises no error at all — the call
returns the empty list. -/
theorem C6_counterexample :
    isBookmarkAttr "nonexistent_field" = false
    ∧ get_bookmarks [] Option.none DomainArg.none
        (Option.some "nonexistent_field") false = Except.ok [] := by decide

/-- Claim C6 (amended): for every non-empty `sortby` value that is not a
`Bookmark` attribute, `get_bookmarks` raises the fatal invalid-sort-
attribute error naming the offending value, provided the filtered bookmark
list is non-empty (CPython evaluates the key once per element, so an empty
list raises nothing). -/
theorem C6_invalid_sort_error (bms : List Bookmark) (f : Option String)
    (d : DomainArg) (s : String) (r : Bool)
    (hs : isBookmarkAttr s = false) (hne : s ≠ "")
    (hnonempty : applyFilters bms f d ≠ []) :
    get_bookmarks bms f d (Option.some s) r
      = Except.error (GBError.invalidSortAttribute
          ("unable to sort Bookmarks by '" ++ s ++ "' attribute")) := by
  have hsort : dateSort r (applyFilters bms f d) ≠ [] := by
    intro h
    exact hnonempty ((pySort_eq_nil_iff _ _).mp h)
  have hempty : (dateSort r (applyFilters bms f d)).isEmpty = false := by
    cases hd : dateSort r (applyFilters bms f d) with
    | nil => exact absurd hd hsort
    | cons a l => rfl
  simp [get_bookmarks, hne, hs, hempty]

/-- Witness for C6 at a non-empty list. -/
theorem C6_witness :
    get_bookmarks [exBm "1" "n" "u" "" "1"] Option.none DomainArg.none
        (Option.some "nonexistent_field") false
      = Except.error (GBError.invalidSortAttribute
          ("unable to sort Bookmarks by '" ++ "nonexistent_field" ++ "' attribute")) :=
  C6_invalid_sort_error [exBm "1" "n" "u" "" "1"] Option.none DomainArg.none
    "nonexistent_field" false (by decide) (by decide) (by decide)

/-- Claim C7: the domain filter accepts one string or a list; a bookmark
is kept iff at least one domain occurs case-insensitively as a substring
of its url (OR across domains); and on the scenario urls, the domains
["github.com","gitlab.com"] keep exactly the first and third. -/
theorem C7_domain_filter :
    (∀ (bms : List Bookmark) (f : Option String) (s : Option String) (r : Bool)
        (dstr : String), dstr ≠ "" →
      get_bookmarks bms f (DomainArg.str dstr) s r
        = get_bookmarks bms f (DomainArg.list [dstr]) s r)
    ∧ (∀ (ds : List String) (bms : List Bookmark) (b : Bookmark),
      b ∈ domainFilter ds bms ↔ b ∈ bms ∧
        ds.any (fun dom => isSub (lowerS dom).data (lowerS b.url).data) = true)
    ∧ domainFilter ["github.com", "gitlab.com"] [bmGit, bmEx, bmLab] = [bmGit, bmLab] := by
  refine ⟨?_, ?_, by decide⟩
  · intro bms f s r dstr h
    simp [get_bookmarks, applyFilters, normalizeDomain, h]
  · intro ds bms b
    simp [domainFilter, domainMatch, List.mem_filter]

/-- Witness for C7: the single-string form agrees with the singleton-list
form at a concrete domain. -/
theorem C7_witness :
    get_bookmarks [bmGit, bmEx, bmLab] Option.none (DomainArg.str "github.com")
        Option.none false
      = get_bookmarks [bmGit, bmEx, bmLab] Option.none (DomainArg.list ["github.com"])
        Option.none false :=
  C7_domain_filter.1 [bmGit, bmEx, bmLab] Option.none Option.none false
    "github.com" (by decide)

/-- The sort key `get_bookmarks` effectively orders by: the `sortby`
attribute when one is given (and non-empty), else `date_added`. -/
def effKey (sortby : Option String) (b : Bookmark) : String :=
  match sortby with
  | Option.none => b.date_added
  | Option.some s => if s = "" then b.date_added else attrKey s b

/-- Claim C8: with fixed filter/sort parameters whose effective sort key
takes pairwise-distinct values on the filtered list, the `reverse=true`
output is the exact reverse of the `reverse=false` output. -/
theorem C8_reverse (bms : List Bookmark) (f : Option String) (d : DomainArg)
    (sortby : Option String)
    (hvalid : sortby = Option.none ∨ sortby = Option.some ""
      ∨ ∃ s, sortby = Option.some s ∧ isBookmarkAttr s = true)
    (hnd : ((applyFilters bms f d).map (effKey sortby)).Nodup) :
    ∃ out, get_bookmarks bms f d sortby false = Except.ok out
      ∧ get_bookmarks bms f d sortby true = Except.ok out.reverse := by
  rcases hvalid with h | h | ⟨s, h, hs⟩
  · subst h
    have hnd' : ((applyFilters bms f d).map (fun b => b.date_added)).Nodup := hnd
    have hrev : pySort (keyLt true (fun b : Bookmark => b.date_added)) (applyFilters bms f d)
        = (pySort (keyLt false (fun b : Bookmark => b.date_added))
            (applyFilters bms f d)).reverse :=
      @pySort_desc_eq_reverse_asc Bookmark (fun b => b.date_added)
        (applyFilters bms f d) (applyFilters bms f d) (applyFilters bms f d)
        hnd' (List.Perm.refl _) (List.Perm.refl _)
    refine ⟨dateSort false (applyFilters bms f d), rfl, ?_⟩
    show Except.ok (dateSort true (applyFilters bms f d)) = _
    rw [show dateSort true (applyFilters bms f d)
        = pySort (keyLt true (fun b : Bookmark => b.date_added))
            (applyFilters bms f d) from rfl, hrev]
    rfl
  · subst h
    have hnd' : ((applyFilters bms f d).map (fun b => b.date_added)).Nodup := hnd
    have hrev : pySort (keyLt true (fun b : Bookmark => b.date_added)) (applyFilters bms f d)
        = (pySort (keyLt false (fun b : Bookmark => b.date_added))
            (applyFilters bms f d)).reverse :=
      @pySort_desc_eq_reverse_asc Bookmark (fun b => b.date_added)
        (applyFilters bms f d) (applyFilters bms f d) (applyFilters bms f d)
        hnd' (List.Perm.refl _) (List.Perm.refl _)
    refine ⟨dateSort false (applyFilters bms f d), by simp [get_bookmarks], ?_⟩
    have hds : dateSort true (applyFilters bms f d)
        = (dateSort false (applyFilters bms f d)).reverse := hrev
    simp [get_bookmarks, hds]
  · subst h
    have hne : s ≠ "" := by
      intro h
      rw [h] at hs
      exact absurd hs (by decide)
    have hmapeq : (applyFilters bms f d).map (effKey (Option.some s))
        = (applyFilters bms f d).map (attrKey s) :=
      List.map_congr_left (fun a _ => by simp [effKey, hne])
    have hnd' : ((applyFilters bms f d).map (attrKey s)).Nodup := by
      rw [← hmapeq]; exact hnd
    have hrev : pySort (keyLt true (attrKey s)) (dateSort true (applyFilters bms f d))
        = (pySort (keyLt false (attrKey s))
            (dateSort false (applyFilters bms f d))).reverse :=
      @pySort_desc_eq_reverse_asc Bookmark (attrKey s)
        (applyFilters bms f d)
        (dateSort false (applyFilters bms f d))
        (dateSort true (applyFilters bms f d))
        hnd' (pySort_perm _ _) (pySort_perm _ _)
    refine ⟨pySort (keyLt false (attrKey s)) (dateSort false (applyFilters bms f d)),
      by simp [get_bookmarks, hne, hs], ?_⟩
    simp [get_bookmarks, hne, hs, hrev]

/-- Witness for C8 at a concrete list with distinct `date_added` keys. -/
theorem C8_witness :
    ∃ out, get_bookmarks [bmGit, bmEx, bmLab] Option.none DomainArg.none
        Option.none false = Except.ok out
      ∧ get_bookmarks [bmGit, bmEx, bmLab] Option.none DomainArg.none
        Option.none true = Except.ok out.reverse :=
  C8_reverse [bmGit, bmEx, bmLab] Option.none DomainArg.none Option.none
    (Or.inl rfl) (by decide)

/-- Claim C9: an empty domain list (or the empty string, which Python's
truthiness test leaves unwrapped and whose iteration yields no domain) is
still a domain filter that nothing can match: the result is the empty
list, whatever the other arguments. -/
theorem C9_empty_domain (bms : List Bookmark) (f : Option String)
    (s : Option String) (r : Bool) :
    get_bookmarks bms f (DomainArg.list []) s r = Except.ok []
    ∧ get_bookmarks bms f (DomainArg.str "") s r = Except.ok [] := by
  constructor
  · refine get_bookmarks_of_filters_nil bms f (DomainArg.list []) s r ?_
    simp [applyFilters, normalizeDomain, domainFilter, domainMatch]
  · refine get_bookmarks_of_filters_nil bms f (DomainArg.str "") s r ?_
    simp [applyFilters, normalizeDomain, domainFilter, domainMatch]

/-- Claim C10: `sortby = ""` is treated exactly like an absent `sortby`
(`if sortby:` is false for the empty string): no error is raised even
though "" is not a Bookmark attribute, no re-sort happens, and the result
is the `date_added` pre-sort of the filtered list. -/
theorem C10_empty_sortby (bms : List Bookmark) (f : Option String)
    (d : DomainArg) (r : Bool) :
    get_bookmarks bms f d (Option.some "") r = get_bookmarks bms f d Option.none r
    ∧ get_bookmarks bms f d (Option.some "") r
      = Except.ok (dateSort r (applyFilters bms f d))
    ∧ isBookmarkAttr "" = false := by
  refine ⟨?_, ?_, by decide⟩ <;> simp [get_bookmarks]

end Handymatt
